import Mathlib

/-!
Shallow embedding of `src/sqlness/src/interceptor/env.rs` (the sqlness
environment-variable redaction interceptor) and proofs about it.

Rust strings are modelled as Lean `String` (a list of characters), and the
string primitives used by the source (`replace`, `starts_with`,
`trim_start_matches`, `trim_start`, `trim_end`, `split`) are implemented
below over the character list, following the Rust semantics.

The process environment (`std::env::var`) is passed explicitly as a lookup
function, and the `HashMap<String, String>` of the interceptor is modelled
as its list of entries in iteration order; the iteration order of a Rust
`HashMap` is unspecified, so order-sensitive properties quantify over (or
exhibit) entry orders, while construction produces entries in token order.
-/

/-- The injected process environment: `environment_lookup(name) -> Option(value)`. -/
abbrev Env := String → Option String

/-- Characters, by code point, used by the whitespace test and the splitter. -/
def spaceChar : Char := Char.ofNat 32

def tabChar : Char := Char.ofNat 9

def lineFeedChar : Char := Char.ofNat 10

def carriageReturnChar : Char := Char.ofNat 13

/-- The common whitespace characters trimmed by Rust's `str::trim_start` /
`trim_end` (the full Unicode White_Space class is larger, but no further
member of it appears in any input considered here). -/
def rustIsWhitespace (c : Char) : Bool :=
  c == spaceChar || c == tabChar || c == lineFeedChar || c == carriageReturnChar

/-- Rust `str::starts_with` for a string pattern. -/
def rustStartsWith (s p : String) : Bool :=
  List.isPrefixOf p.data s.data

/-- Scanner for Rust `str::replace` with a nonempty pattern: scan left to
right, replace each non-overlapping occurrence of `pat` by `rep`. The fuel
is the length of the scanned list, which suffices because every step
consumes at least one character. -/
def replaceFuel (pat rep : List Char) : Nat → List Char → List Char
  | _, [] => []
  | 0, s => s
  | fuel + 1, c :: rest =>
    if List.isPrefixOf pat (c :: rest) then
      rep ++ replaceFuel pat rep fuel (List.drop (pat.length - 1) rest)
    else
      c :: replaceFuel pat rep fuel rest

/-- Rust `str::replace` on character lists. An empty pattern matches at
every character boundary, so `rep` is interleaved before every character
and appended at the end, as in Rust. -/
def rustReplaceList (pat rep s : List Char) : List Char :=
  if pat.isEmpty then
    rep ++ s.foldr (fun c acc => c :: (rep ++ acc)) []
  else
    replaceFuel pat rep s.length s

/-- Rust `line.replace(pat, rep)`. -/
def rustReplace (s pat rep : String) : String :=
  ⟨rustReplaceList pat.data rep.data s.data⟩

/-- Helper for Rust `str::trim_start_matches`: repeatedly strip the prefix
`p` while present. Fuel is the length of the string. -/
def trimMatchesFuel (p : List Char) : Nat → List Char → List Char
  | 0, s => s
  | fuel + 1, s =>
    if !p.isEmpty && List.isPrefixOf p s then
      trimMatchesFuel p fuel (List.drop p.length s)
    else
      s

/-- Rust `s.trim_start_matches(p)`. -/
def rustTrimStartMatches (s p : String) : String :=
  ⟨trimMatchesFuel p.data s.data.length s.data⟩

/-- Rust `s.trim_start()`. -/
def rustTrimStart (s : String) : String :=
  ⟨s.data.dropWhile rustIsWhitespace⟩

/-- Rust `s.trim_end()`. -/
def rustTrimEnd (s : String) : String :=
  ⟨(s.data.reverse.dropWhile rustIsWhitespace).reverse⟩

/-- Splitter for Rust `str::split(sep)` with a character separator: empty
tokens are kept, and the empty string yields one empty token. -/
def splitCharList (sep : Char) : List Char → List (List Char)
  | [] => [[]]
  | c :: rest =>
    match splitCharList sep rest with
    | [] => [[]]
    | t :: ts => if c == sep then [] :: t :: ts else (c :: t) :: ts

/-- Rust `s.split(sep).collect::<Vec<_>>()` for a character separator. -/
def rustSplitChar (s : String) (sep : Char) : List String :=
  (splitCharList sep s.data).map String.mk

/-- `const PREFIX: &str = "ENV"` from the source (renamed). -/
def ENV_KEYWORD : String := "ENV"

/-- Modelled from the spec: `crate::case::QueryContext` is not under `src/`;
the spec describes it as a small per-Case mutable side-channel, e.g. an
ordered mapping from string key to value. The env interceptor ignores it,
so any concrete carrier works; an entry list follows the spec's words. -/
structure QueryContext where
  entries : List (String × String)
deriving DecidableEq

/-- The redaction interceptor. `data` models the Rust
`HashMap<String, String>` as its entry list in iteration order. -/
structure EnvInterceptor where
  data : List (String × String)
deriving DecidableEq

/-- The inner loop of `before_execute`: for each recorded mapping, in
iteration order, `line = line.replace(key, value)` on the current line. -/
def envSubstLine (data : List (String × String)) (line : String) : String :=
  data.foldl (fun l kv => rustReplace l kv.1 kv.2) line

/-- The outer loop of `before_execute`: every line of the query is rewritten
by the inner loop. -/
def envSubst (data : List (String × String)) (q : List String) : List String :=
  q.map (envSubstLine data)

/-- `EnvInterceptor::before_execute(&self, execute_query, ctx)`. The Rust
hook mutates the query lines in place through `&mut`, takes `&self`
immutably and ignores the context; state passing makes all three explicit:
the hook returns the (unchanged) interceptor, the rewritten lines and the
(unchanged) context. -/
def EnvInterceptor.before_execute (self : EnvInterceptor) (execute_query : List String)
    (ctx : QueryContext) : EnvInterceptor × List String × QueryContext :=
  (self, envSubst self.data execute_query, ctx)

/-- Modelled from the spec: the `Interceptor` trait (crate::interceptor) is
not under `src/`; `impl Interceptor for EnvInterceptor` overrides only
`before_execute`, and the spec states the after hook is "none
(pass-through)", so the default hook returns the result text unchanged. -/
def EnvInterceptor.after_execute (self : EnvInterceptor) (result : String)
    (ctx : QueryContext) : EnvInterceptor × String × QueryContext :=
  (self, result, ctx)

/-- `HashMap::insert` modelled on the entry list: overwrite the value if the
key is already present, else append the new entry. -/
def hashMapInsert (m : List (String × String)) (k v : String) : List (String × String) :=
  if m.any (fun kv => kv.1 == k) then
    m.map (fun kv => if kv.1 == k then (k, v) else kv)
  else
    m ++ [(k, v)]

/-- One step of the construction loop: look the token up in the environment;
if present insert the mapping `"$" + name -> value`, else skip. -/
def envStep (env : Env) (m : List (String × String)) (e : String) : List (String × String) :=
  match env e with
  | some value => hashMapInsert m ("$" ++ e) value
  | none => m

/-- The construction loop of `EnvInterceptorFactory::create`, starting from
the empty map. -/
def collectEnvData (env : Env) (envs : List String) : List (String × String) :=
  envs.foldl (envStep env) []

/-- The argument cut of `create`:
`interceptor.trim_start_matches(PREFIX).trim_start().trim_end()`. -/
def cutInput (interceptor : String) : String :=
  rustTrimEnd (rustTrimStart (rustTrimStartMatches interceptor ENV_KEYWORD))

/-- The token list of `create`: `input.split(' ').collect()`. -/
def envTokens (interceptor : String) : List String :=
  rustSplitChar (cutInput interceptor) spaceChar

/-- `EnvInterceptorFactory::create`, with the process environment passed
explicitly in place of `std::env::var`. -/
def EnvInterceptorFactory.create (env : Env) (interceptor : String) : Option EnvInterceptor :=
  if rustStartsWith interceptor ENV_KEYWORD then
    some { data := collectEnvData env (envTokens interceptor) }
  else
    none

/-- `EnvInterceptorFactory::try_new`: wraps `create`; the Rust boxing into a
trait object is dropped by the embedding. -/
def EnvInterceptorFactory.try_new (env : Env) (interceptor : String) : Option EnvInterceptor :=
  EnvInterceptorFactory.create env interceptor

/-- Follows the spec's words for claim C3, not the source: the first
whitespace-delimited token of the directive text after trimming. -/
def firstTokenAfterTrim (s : String) : String :=
  ⟨(rustTrimStart s).data.takeWhile (fun c => !(rustIsWhitespace c))⟩

/-- An environment with no variables set. -/
def envNone : Env := fun _ => none

/-- The environment of the source's unit test and of the spec's scenario:
only `SECRET` is set, to `2333`. -/
def envSecret : Env := fun name => if name = "SECRET" then some "2333" else none

/-- An environment where the value of `A` contains the key of `B`. -/
def envChain : Env :=
  fun name => if name = "A" then some "$B" else if name = "B" then some "x" else none

/-- An environment with the overlapping variable names `A` and `AB`. -/
def envMix : Env :=
  fun name => if name = "A" then some "x" else if name = "AB" then some "y" else none

/-- An empty query context. -/
def emptyCtx : QueryContext := ⟨[]⟩

/-! ## Helper lemmas -/

/-- Appending two concatenated entry lists rewrites a line as the second
list applied after the first. -/
theorem envSubstLine_append (d1 d2 : List (String × String)) (line : String) :
    envSubstLine (d1 ++ d2) line = envSubstLine d2 (envSubstLine d1 line) := by
  simp [envSubstLine, List.foldl_append]

/-- The same compositionality lifted to whole line sets. -/
theorem envSubst_append (d1 d2 : List (String × String)) (q : List String) :
    envSubst (d1 ++ d2) q = envSubst d2 (envSubst d1 q) := by
  induction q with
  | nil => rfl
  | cons a t ih =>
      simp only [envSubst, List.map_cons] at ih ⊢
      exact congrArg₂ List.cons (envSubstLine_append d1 d2 a) ih

/-- An interceptor with an empty mapping leaves every line unchanged. -/
theorem envSubst_nil (q : List String) : envSubst [] q = q := by
  induction q with
  | nil => rfl
  | cons a t ih => exact congrArg₂ List.cons rfl ih

/-- The inserted entry is a member of the updated map. -/
theorem mem_hashMapInsert (m : List (String × String)) (k v : String) :
    (k, v) ∈ hashMapInsert m k v := by
  unfold hashMapInsert
  split
  · rename_i h
    rcases List.any_eq_true.mp h with ⟨kv, hkv, hbeq⟩
    exact List.mem_map.mpr ⟨kv, hkv, by simp [hbeq]⟩
  · exact List.mem_append.mpr (Or.inr (List.mem_singleton.mpr rfl))

/-- Entries with a different key survive an insertion. -/
theorem mem_hashMapInsert_of_ne (m : List (String × String)) (k v k' v' : String)
    (hne : k' ≠ k) (hmem : (k', v') ∈ m) : (k', v') ∈ hashMapInsert m k v := by
  unfold hashMapInsert
  split
  · exact List.mem_map.mpr ⟨(k', v'), hmem, by simp [beq_iff_eq, hne]⟩
  · exact List.mem_append.mpr (Or.inl hmem)

/-- Every entry of an updated map is the inserted entry or came from the
original map. -/
theorem hashMapInsert_sound (m : List (String × String)) (k v : String)
    (p : String × String) (hp : p ∈ hashMapInsert m k v) : p = (k, v) ∨ p ∈ m := by
  unfold hashMapInsert at hp
  split at hp
  · rcases List.mem_map.mp hp with ⟨kv, hkv, heq⟩
    by_cases hb : (kv.1 == k) = true
    · left
      simp only [hb, if_true] at heq
      exact heq.symm
    · right
      simp only [hb] at heq
      simpa [← heq] using hkv
  · rcases List.mem_append.mp hp with h | h
    · exact Or.inr h
    · exact Or.inl (List.mem_singleton.mp h)

/-- Prepending the same string to both sides of an equality can be
cancelled. -/
theorem string_append_left_cancel (a t u : String) (h : a ++ t = a ++ u) : t = u := by
  have hd : (a ++ t).data = (a ++ u).data := by rw [h]
  rw [String.data_append, String.data_append] at hd
  exact String.ext (List.append_cancel_left hd)

/-- Keys of the form a dollar sign followed by a name determine the name. -/
theorem dollar_key_inj (t u : String) (h : "$" ++ t = "$" ++ u) : t = u :=
  string_append_left_cancel "$" t u h

/-- An entry whose key and value agree with the environment survives one
construction step. -/
theorem envStep_preserves (env : Env) (m : List (String × String)) (e t v : String)
    (hv : env t = some v) (hmem : ("$" ++ t, v) ∈ m) : ("$" ++ t, v) ∈ envStep env m e := by
  unfold envStep
  cases henv : env e with
  | none => exact hmem
  | some w =>
      by_cases he : ("$" ++ t) = ("$" ++ e)
      · have ht : t = e := dollar_key_inj t e he
        subst ht
        have hw : v = w := by
          rw [hv] at henv
          exact Option.some.inj henv
        rw [he, hw]
        exact mem_hashMapInsert m ("$" ++ t) w
      · exact mem_hashMapInsert_of_ne m ("$" ++ e) w ("$" ++ t) v he hmem

/-- An entry whose key and value agree with the environment survives the
whole construction loop. -/
theorem foldl_envStep_preserves (env : Env) (ts : List String)
    (acc : List (String × String)) (t v : String)
    (hv : env t = some v) (hmem : ("$" ++ t, v) ∈ acc) :
    ("$" ++ t, v) ∈ ts.foldl (envStep env) acc := by
  induction ts generalizing acc with
  | nil => exact hmem
  | cons e rest ih => exact ih (envStep env acc e) (envStep_preserves env acc e t v hv hmem)

/-- Completeness of the construction loop: every declared name present in
the environment ends up recorded with its looked-up value. -/
theorem foldl_envStep_complete (env : Env) (ts : List String)
    (acc : List (String × String)) (name v : String)
    (hname : name ∈ ts) (hv : env name = some v) :
    ("$" ++ name, v) ∈ ts.foldl (envStep env) acc := by
  induction ts generalizing acc with
  | nil => cases hname
  | cons e rest ih =>
      rcases List.mem_cons.mp hname with heq | hmem
      · subst heq
        apply foldl_envStep_preserves env rest (envStep env acc name) name v hv
        unfold envStep
        rw [hv]
        exact mem_hashMapInsert acc ("$" ++ name) v
      · exact ih (envStep env acc e) hmem

/-- Soundness of the construction loop: every recorded entry is the dollar
key of some name together with that name's looked-up value. -/
theorem foldl_envStep_sound (env : Env) (ts : List String)
    (acc : List (String × String))
    (hacc : ∀ p ∈ acc, ∃ t, p.1 = "$" ++ t ∧ env t = some p.2) :
    ∀ p ∈ ts.foldl (envStep env) acc, ∃ t, p.1 = "$" ++ t ∧ env t = some p.2 := by
  induction ts generalizing acc with
  | nil => exact hacc
  | cons e rest ih =>
      apply ih
      intro p hp
      unfold envStep at hp
      cases henv : env e with
      | none =>
          rw [henv] at hp
          exact hacc p hp
      | some w =>
          rw [henv] at hp
          rcases hashMapInsert_sound acc ("$" ++ e) w p hp with heq | hmemacc
          · exact ⟨e, by rw [heq], by rw [heq]; exact henv⟩
          · exact hacc p hmemacc

/-- If the environment has none of the declared names, the construction loop
builds nothing. -/
theorem foldl_envStep_all_absent (env : Env) (ts : List String)
    (acc : List (String × String)) (habs : ∀ t ∈ ts, env t = none) :
    ts.foldl (envStep env) acc = acc := by
  induction ts generalizing acc with
  | nil => rfl
  | cons e rest ih =>
      have he : env e = none := habs e (List.mem_cons_self e rest)
      have hstep : envStep env acc e = acc := by
        unfold envStep
        rw [he]
      rw [List.foldl_cons, hstep]
      exact ih acc (fun t ht => habs t (List.mem_cons_of_mem e ht))

/-! ## Claims -/

/-- Claim C1 counterexample: the spec claims one mapping's substitution can
never reintroduce another mapping's key pattern and have it re-substituted
within the same hook call. With `A` set to the text `$B` and `B` set to
`x`, the factory records the mappings `$A -> $B` and `$B -> x`; on the
single line `$A`, the hook first rewrites the line to `$B`, and the later
mapping then re-substitutes that freshly introduced pattern, producing `x`.
Under the claim the hook would leave `$B`, so the claim is false. -/
theorem env_cascade_resubstitution_counterexample :
    EnvInterceptorFactory.create envChain "ENV A B" =
      some ⟨[("$A", "$B"), ("$B", "x")]⟩ ∧
    (EnvInterceptor.before_execute ⟨[("$A", "$B"), ("$B", "x")]⟩ ["$A"] emptyCtx).2.1 =
      ["x"] ∧
    (["x"] : List String) ≠ ["$B"] := by
  refine ⟨by decide, by decide, by decide⟩

/-- Claim C1 (amended): the hook applies each recorded mapping exactly once
to every line, sequentially in mapping iteration order on the current
(already substituted) line text — it equals the fold of single-mapping
passes over the whole line set. Consequently text introduced by an earlier
mapping can be re-substituted by a later mapping within the same call. -/
theorem env_subst_per_mapping_sequential (data : List (String × String)) (q : List String) :
    envSubst data q = data.foldl (fun acc kv => envSubst [kv] acc) q := by
  induction data generalizing q with
  | nil => exact envSubst_nil q
  | cons kv rest ih =>
      have h1 : envSubst (kv :: rest) q = envSubst rest (envSubst [kv] q) := by
        simpa using envSubst_append [kv] rest q
      rw [h1, ih (envSubst [kv] q), List.foldl_cons]

/-- Claim C2: the after-execution hook of the env interceptor is a pure
pass-through — the result text, the interceptor and the context all come
back unchanged, so no substituted value is introduced into any recorded
output artifact by this interceptor. -/
theorem env_after_execute_passthrough (i : EnvInterceptor) (result : String)
    (ctx : QueryContext) : EnvInterceptor.after_execute i result ctx = (i, result, ctx) :=
  rfl

/-- Claim C3 counterexample: the spec claims the ENV factory constructs an
interceptor if and only if the first whitespace-delimited token of the
directive text is exactly `ENV`. The source only tests a string prefix, so
the directive `ENVX`, whose first token is `ENVX`, still constructs an
interceptor (with an empty mapping under an empty environment). -/
theorem env_create_prefix_not_token_counterexample :
    EnvInterceptorFactory.create envNone "ENVX" = some ⟨[]⟩ ∧
    firstTokenAfterTrim "ENVX" ≠ ENV_KEYWORD := by
  refine ⟨by decide, by decide⟩

/-- Claim C3 (amended): the factory constructs an interceptor if and only if
the directive text literally starts with the string `ENV` — a plain prefix
test without tokenization and without prior trimming. -/
theorem env_create_iff_prefix_test (env : Env) (s : String) :
    (EnvInterceptorFactory.create env s).isSome = rustStartsWith s ENV_KEYWORD := by
  cases h : rustStartsWith s ENV_KEYWORD <;>
    simp [EnvInterceptorFactory.create, h]

/-- Claim C4: with the environment variable `SECRET` bound to `2333`, the
directive `ENV SECRET` resolves to exactly one interceptor whose mapping
sends `$SECRET` to `2333`, and its before-hook rewrites the query line
`SELECT $SECRET;` to `SELECT 2333;`. -/
theorem env_secret_scenario :
    EnvInterceptorFactory.try_new envSecret "ENV SECRET" =
      some ⟨[("$SECRET", "2333")]⟩ ∧
    EnvInterceptor.before_execute ⟨[("$SECRET", "2333")]⟩ ["SELECT $SECRET;"] emptyCtx =
      (⟨[("$SECRET", "2333")]⟩, ["SELECT 2333;"], emptyCtx) := by
  refine ⟨by decide, by decide⟩

/-- Claim C5: for every directive text the factory recognizes (a text
starting with `ENV`), construction succeeds: the factory returns an
interceptor whose mapping records, for each declared name present in the
environment, the entry from the dollar-prefixed name to the value, and
holds no entry for a declared name absent from the environment. -/
theorem env_create_always_succeeds (env : Env) (s : String)
    (h : rustStartsWith s ENV_KEYWORD = true) :
    ∃ i, EnvInterceptorFactory.create env s = some i ∧
      (∀ name v, name ∈ envTokens s → env name = some v → ("$" ++ name, v) ∈ i.data) ∧
      (∀ name v, name ∈ envTokens s → env name = none → ("$" ++ name, v) ∉ i.data) := by
  refine ⟨⟨collectEnvData env (envTokens s)⟩, ?_, ?_, ?_⟩
  · simp [EnvInterceptorFactory.create, h]
  · intro name v hmem hv
    exact foldl_envStep_complete env (envTokens s) [] name v hmem hv
  · intro name v _ hv hin
    have hsound := foldl_envStep_sound env (envTokens s) [] (by intro p hp; cases hp)
    rcases hsound ("$" ++ name, v) hin with ⟨t, ht, htv⟩
    have : t = name := (dollar_key_inj name t ht).symm
    rw [this, hv] at htv
    cases htv

/-- Witness for claim C5 at the source's own unit-test input: directive
`ENV SECRET NONEXISTENT` with only `SECRET` set, to `2333`. -/
theorem env_create_always_succeeds_witness :
    ∃ i, EnvInterceptorFactory.create envSecret "ENV SECRET NONEXISTENT" = some i ∧
      (∀ name v, name ∈ envTokens "ENV SECRET NONEXISTENT" →
        envSecret name = some v → ("$" ++ name, v) ∈ i.data) ∧
      (∀ name v, name ∈ envTokens "ENV SECRET NONEXISTENT" →
        envSecret name = none → ("$" ++ name, v) ∉ i.data) :=
  env_create_always_succeeds envSecret "ENV SECRET NONEXISTENT" (by decide)

/-- Claim C6: an ENV directive all of whose declared names are absent from
the environment constructs an interceptor with an empty mapping, and its
before-hook returns every query line exactly unchanged. -/
theorem env_absent_vars_unchanged (env : Env) (s : String) (q : List String)
    (ctx : QueryContext) (h : rustStartsWith s ENV_KEYWORD = true)
    (habs : ∀ t ∈ envTokens s, env t = none) :
    ∃ i, EnvInterceptorFactory.create env s = some i ∧ i.data = [] ∧
      EnvInterceptor.before_execute i q ctx = (i, q, ctx) := by
  have hdata : collectEnvData env (envTokens s) = [] :=
    foldl_envStep_all_absent env (envTokens s) [] habs
  refine ⟨⟨[]⟩, ?_, rfl, ?_⟩
  · simp [EnvInterceptorFactory.create, h, hdata]
  · simp [EnvInterceptor.before_execute, envSubst_nil]

/-- Witness for claim C6 at the spec's scenario: directive `ENV SECRET`
under an empty environment, query `SELECT $SECRET;`. -/
theorem env_absent_vars_unchanged_witness :
    ∃ i, EnvInterceptorFactory.create envNone "ENV SECRET" = some i ∧ i.data = [] ∧
      EnvInterceptor.before_execute i ["SELECT $SECRET;"] emptyCtx =
        (i, ["SELECT $SECRET;"], emptyCtx) :=
  env_absent_vars_unchanged envNone "ENV SECRET" ["SELECT $SECRET;"] emptyCtx
    (by decide) (fun _ _ => rfl)

/-- Claim C7 counterexample: the spec claims one directive `ENV A AB` is
equivalent to the two directives `ENV A` and `ENV AB` applied in declared
order, for every iteration order of the combined mapping (which a hash map
leaves unspecified). With `A` set to `x` and `AB` set to `y`, on the query
line `$AB` the separate interceptors produce `xB`, while the combined
mapping iterated in the order `$AB` then `$A` — a permutation of the
recorded entries — produces `y`. -/
theorem env_combined_vs_separate_counterexample :
    EnvInterceptorFactory.create envMix "ENV A AB" =
      some ⟨[("$A", "x"), ("$AB", "y")]⟩ ∧
    EnvInterceptorFactory.create envMix "ENV A" = some ⟨[("$A", "x")]⟩ ∧
    EnvInterceptorFactory.create envMix "ENV AB" = some ⟨[("$AB", "y")]⟩ ∧
    List.Perm [("$AB", "y"), ("$A", "x")] [("$A", "x"), ("$AB", "y")] ∧
    (EnvInterceptor.before_execute ⟨[("$AB", "y")]⟩
      ((EnvInterceptor.before_execute ⟨[("$A", "x")]⟩ ["$AB"] emptyCtx).2.1)
      emptyCtx).2.1 = ["xB"] ∧
    (EnvInterceptor.before_execute ⟨[("$AB", "y"), ("$A", "x")]⟩ ["$AB"] emptyCtx).2.1 =
      ["y"] ∧
    (["y"] : List String) ≠ ["xB"] := by
  refine ⟨by decide, by decide, by decide, by decide, by decide, by decide, by decide⟩

/-- Claim C7 (amended): declaring several variables in one ENV directive is
equivalent to declaring them in separate directives applied in declared
order, provided the combined interceptor iterates its mappings in that
declared order: the hook of the concatenated mapping list equals the hook
of the second list applied after the hook of the first. For other
iteration orders of the same mappings the equivalence can fail. -/
theorem env_one_directive_eq_two_directives (d1 d2 : List (String × String))
    (q : List String) (ctx : QueryContext) :
    EnvInterceptor.before_execute ⟨d1 ++ d2⟩ q ctx =
      (⟨d1 ++ d2⟩,
        (EnvInterceptor.before_execute ⟨d2⟩
          ((EnvInterceptor.before_execute ⟨d1⟩ q ctx).2.1) ctx).2.1,
        ctx) := by
  simp [EnvInterceptor.before_execute, envSubst_append]

/-- Claim C8 counterexample: the spec claims the transformed query text is
independent of the unspecified iteration order over the recorded mappings.
The directive `ENV A AB` with `A` set to `x` and `AB` set to `y` records
two entries; iterating them in the two possible orders rewrites the line
`$AB` to `xB` in one order and to `y` in the other. -/
theorem env_iteration_order_counterexample :
    EnvInterceptorFactory.create envMix "ENV A AB" =
      some ⟨[("$A", "x"), ("$AB", "y")]⟩ ∧
    List.Perm [("$A", "x"), ("$AB", "y")] [("$AB", "y"), ("$A", "x")] ∧
    (EnvInterceptor.before_execute ⟨[("$A", "x"), ("$AB", "y")]⟩ ["$AB"] emptyCtx).2.1 =
      ["xB"] ∧
    (EnvInterceptor.before_execute ⟨[("$AB", "y"), ("$A", "x")]⟩ ["$AB"] emptyCtx).2.1 =
      ["y"] ∧
    (["xB"] : List String) ≠ ["y"] := by
  refine ⟨by decide, by decide, by decide, by decide, by decide⟩

/-- Claim C8 (amended): rerunning the hook on the same unmodified query is
deterministic provided both runs iterate the recorded mappings in the same
order; the iteration order itself is not fixed by a hash map, and a
different order over the same mappings can change the transformed text. -/
theorem env_same_order_deterministic (d1 d2 : List (String × String))
    (q : List String) (ctx : QueryContext) (h : d1 = d2) :
    EnvInterceptor.before_execute ⟨d1⟩ q ctx =
      EnvInterceptor.before_execute ⟨d2⟩ q ctx := by
  rw [h]

/-- Witness for claim C8 (amended) at the secret scenario mapping. -/
theorem env_same_order_deterministic_witness :
    EnvInterceptor.before_execute ⟨[("$SECRET", "2333")]⟩ ["SELECT $SECRET;"] emptyCtx =
      EnvInterceptor.before_execute ⟨[("$SECRET", "2333")]⟩ ["SELECT $SECRET;"] emptyCtx :=
  env_same_order_deterministic [("$SECRET", "2333")] [("$SECRET", "2333")]
    ["SELECT $SECRET;"] emptyCtx rfl

/-- Claim C9: for every directive text that does not start with the `ENV`
keyword, `try_new` yields no interceptor rather than failing or producing a
partial instance. -/
theorem env_try_new_rejects_unmatched (env : Env) (s : String)
    (h : rustStartsWith s ENV_KEYWORD = false) :
    EnvInterceptorFactory.try_new env s = none := by
  simp [EnvInterceptorFactory.try_new, EnvInterceptorFactory.create, h]

/-- Witness for claim C9 at a foreign directive text. -/
theorem env_try_new_rejects_unmatched_witness :
    EnvInterceptorFactory.try_new envNone "SORT_RESULT" = none :=
  env_try_new_rejects_unmatched envNone "SORT_RESULT" (by decide)

/-- Claim C10: the before-hook preserves the number and order of query
lines — the output is the pointwise per-line rewrite of the input, of equal
length — and returns the interceptor's mapping and the query context
unchanged. -/
theorem env_before_execute_frame (i : EnvInterceptor) (q : List String)
    (ctx : QueryContext) :
    (EnvInterceptor.before_execute i q ctx).1 = i ∧
    (EnvInterceptor.before_execute i q ctx).2.2 = ctx ∧
    (EnvInterceptor.before_execute i q ctx).2.1 = q.map (envSubstLine i.data) ∧
    ((EnvInterceptor.before_execute i q ctx).2.1).length = q.length := by
  refine ⟨rfl, rfl, rfl, ?_⟩
  simp [EnvInterceptor.before_execute, envSubst]
